import Mathlib

/-!
Shallow embedding of the LED text scroller's frame-transmission core
(`src/app.py`, with the earlier protocol builders of `src/app.bak.py`),
together with theorems checking the natural-language specification.

Bytes are modelled as `Nat` values (the Python code masks with `& 0xFF`,
modelled as `% 256`, wherever a value is placed into a packet), byte
strings as `List Nat`, and a UDP send as appending one datagram to the
list of emitted datagrams.  Loops over a buffer are modelled by
structural recursion on a fuel parameter; the fuel chosen at each entry
point is large enough that the fuel-exhausted branch is unreachable
(every iteration consumes at least one byte / pixel of the buffer), and
every theorem about a loop carries the corresponding fuel bound.
-/

namespace LedScroller

/-- Matrix width constant `MATRIX_W` from `app.py`. -/
def MATRIX_W : Nat := 64

/-- Matrix height constant `MATRIX_H` from `app.py`. -/
def MATRIX_H : Nat := 16

/-! ## DDP encoder (`_ddp_header` and `send_ddp_frame` in `app.py`) -/

/-- One DDP datagram, split into its 10-byte header and its payload.
The bytes actually sent on the wire are `header ++ payload`
(`sock.sendto(header + rgb_bytes[offset:offset+pay], ...)`). -/
structure DdpChunk where
  header : List Nat
  payload : List Nat
deriving Repr, DecidableEq

/-- Embedding of `_ddp_header(offset_bytes, data_len, channel, seq, push)`:
flags byte `0x01`, with `0x40` or-ed in when `push` is set; channel, sequence
and the big-endian offset / length fields are masked to bytes exactly as the
Python `& 0xFF` does. -/
def ddp_header (offset_bytes data_len channel seq : Nat) (push : Bool) : List Nat :=
  let flags : Nat := if push then 0x01 ||| 0x40 else 0x01
  [flags,
   channel % 256,
   seq % 256,
   0x00,
   (offset_bytes >>> 24) % 256,
   (offset_bytes >>> 16) % 256,
   (offset_bytes >>> 8) % 256,
   offset_bytes % 256,
   (data_len >>> 8) % 256,
   data_len % 256]

/-- Constant `MAX_PAYLOAD = 1200` from `send_ddp_frame`. -/
def MAX_PAYLOAD : Nat := 1200

/-- The `while offset < total` loop of `send_ddp_frame`, with an explicit
fuel parameter for termination.  Each iteration takes
`pay = min(MAX_PAYLOAD - MAX_PAYLOAD % 3, total - offset)` bytes starting at
`offset`, sets the PUSH flag exactly when `offset + pay >= total`, and emits
the header plus the slice `rgb_bytes[offset:offset+pay]`. -/
def send_ddp_loop (rgb : List Nat) (channel seq : Nat) : Nat → Nat → Nat → List DdpChunk
  | _offset, _idx, 0 => []
  | offset, idx, fuel + 1 =>
    if offset < rgb.length then
      let remain := rgb.length - offset
      let pay := min (MAX_PAYLOAD - MAX_PAYLOAD % 3) remain
      let push : Bool := decide (offset + pay ≥ rgb.length)
      { header := ddp_header offset pay channel ((seq + idx) % 256) push,
        payload := (rgb.drop offset).take pay } ::
        send_ddp_loop rgb channel seq (offset + pay) (idx + 1) fuel
    else []

/-- Embedding of `send_ddp_frame(sock, ip, port, rgb_bytes, channel, seq)`:
the list of datagrams emitted, in emission order.  The loop runs at most
`rgb.length` iterations (each takes at least one byte), so fuel
`rgb.length + 1` never runs out. -/
def send_ddp_frame (rgb : List Nat) (channel seq : Nat) : List DdpChunk :=
  send_ddp_loop rgb channel seq 0 0 (rgb.length + 1)

/-- The big-endian 32-bit byte offset recorded in a chunk's header
(bytes 4..7). -/
def decodeOffset (c : DdpChunk) : Nat :=
  c.header.getD 4 0 * 2 ^ 24 + c.header.getD 5 0 * 2 ^ 16 +
    c.header.getD 6 0 * 2 ^ 8 + c.header.getD 7 0

/-- The PUSH bit (0x40) of a chunk's flags byte. -/
def pushBit (c : DdpChunk) : Bool :=
  (c.header.getD 0 0) &&& 0x40 == 0x40

/-- The sequence byte (byte 2) of a chunk's header. -/
def seqByte (c : DdpChunk) : Nat :=
  c.header.getD 2 0

/-! ## Simple protocol (`send_simple_udp_frame` in `app.py`,
`build_simple_packet` in `app.bak.py`) -/

/-- Embedding of `send_simple_udp_frame(sock, ip, port, rgb_bytes)` from
`app.py`: a single `sock.sendto(rgb_bytes, ...)`, i.e. exactly one datagram
holding the raw buffer. -/
def send_simple_udp_frame (rgb : List Nat) : List (List Nat) :=
  [rgb]

/-- The 7-byte magic tag `b"ST16x64"` of `build_simple_packet`. -/
def SIMPLE_MAGIC : List Nat := [83, 84, 49, 54, 120, 54, 52]

/-- Embedding of `build_simple_packet(payload)` from `app.bak.py`:
`b"ST16x64" + bytes([MATRIX_W, MATRIX_H]) + payload`. -/
def build_simple_packet (payload : List Nat) : List Nat :=
  SIMPLE_MAGIC ++ [MATRIX_W, MATRIX_H] ++ payload

/-! ## WLED realtime (`send_wled_realtime_frame` in `app.py`,
`wled_udp_send` in `app.bak.py`) -/

/-- Embedding of `send_wled_realtime_frame(sock, ip, port, rgb_bytes)` from
`app.py`: a single `sock.sendto(rgb_bytes, ...)` — the raw buffer as one
datagram, with no DNRGB header and no chunking. -/
def send_wled_realtime_frame (rgb : List Nat) : List (List Nat) :=
  [rgb]

/-- The `for start in range(0, led_count, CHUNK_PIXELS)` loop of
`wled_udp_send` from `app.bak.py`, with an explicit fuel parameter.  Each
datagram is the 4-byte header `[4, tbyte, start >> 8 & 0xFF, start & 0xFF]`
followed by the slice `rgb_bytes[start*3 : (start+n)*3]` where
`n = min(489, led_count - start)`; the pair records (header, payload). -/
def wled_udp_loop (rgb : List Nat) (led_count tbyte : Nat) :
    Nat → Nat → List (List Nat × List Nat)
  | _start, 0 => []
  | start, fuel + 1 =>
    if start < led_count then
      let n := min 489 (led_count - start)
      let header := [4, tbyte, (start >>> 8) % 256, start % 256]
      let payload := (rgb.drop (start * 3)).take (n * 3)
      (header, payload) :: wled_udp_loop rgb led_count tbyte (start + 489) fuel
    else []

/-- Embedding of `wled_udp_send(sock, ip, port, rgb_bytes, led_count,
timeout_sec)` from `app.bak.py`.  The timeout byte is
`max(1, min(255, int(timeout_sec)))`.  The loop advances `start` by 489
each iteration, so fuel `led_count + 1` never runs out. -/
def wled_udp_send (rgb : List Nat) (led_count : Nat) (timeout_sec : Int) :
    List (List Nat × List Nat) :=
  let tbyte := (max 1 (min 255 timeout_sec)).toNat
  wled_udp_loop rgb led_count tbyte 0 (led_count + 1)

/-! ## Pixel reorderer (`remap_serpentine` in `app.py`)

The Python function allocates `out = bytearray(len(rgb_bytes))` and writes
each processed row at byte positions `[y*row_stride, (y+1)*row_stride)`.
Slice assignment is modelled for the in-range case (buffer length at least
`height * width * 3`), where every row slice is full and every assignment
replaces exactly `row_stride` bytes; a shorter buffer triggers Python's
splice-resizing semantics for `bytearray`, which is not modelled here, and
no theorem evaluates the function there. -/

/-- The odd-row reversal inner loop of `remap_serpentine`:
`rev[(width-1-x)*3 : (width-1-x)*3+3] = row[x*3 : x*3+3]`, i.e. output slot
`j` receives the input pixel triplet `width-1-j`. -/
def reverse_triplets (width : Nat) (row : List Nat) : List Nat :=
  ((List.range width).map (fun j => (row.drop ((width - 1 - j) * 3)).take 3)).flatten

/-- Embedding of `remap_serpentine(rgb_bytes, width, height, serpentine)`
from `app.py`: with `serpentine` false the buffer is returned unchanged;
otherwise even rows are copied and odd rows are triplet-reversed, and bytes
of `out` beyond `height * row_stride` keep their zero initial value. -/
def remap_serpentine (rgb_bytes : List Nat) (width height : Nat)
    (serpentine : Bool) : List Nat :=
  if !serpentine then rgb_bytes
  else
    let row_stride := width * 3
    ((List.range height).map (fun y =>
      let row := (rgb_bytes.drop (y * row_stride)).take row_stride
      if y % 2 == 0 then row else reverse_triplets width row)).flatten
      ++ List.replicate (rgb_bytes.length - height * row_stride) 0

/-- Row `y` of a row-major buffer (used to state the row-wise claims). -/
def rowOf (buf : List Nat) (width y : Nat) : List Nat :=
  (buf.drop (y * (width * 3))).take (width * 3)

/-- Pixel triplet `x` of a row. -/
def tripletOf (row : List Nat) (x : Nat) : List Nat :=
  (row.drop (x * 3)).take 3

/-- The list of a row's pixel triplets. -/
def triplets (width : Nat) (row : List Nat) : List (List Nat) :=
  (List.range width).map (tripletOf row)

/-! ## Lifecycle controller (`start` / `stop_worker` in `app.py`)

The thread management of the `/start` route and `stop_worker` is modelled
as a transition system over an abstract state.  Under `STATE_LOCK`,
`stop_worker` runs `if SENDER_THREAD and SENDER_THREAD.is_alive():
STOP_EVENT.set(); SENDER_THREAD.join(timeout=2.0)` and then
`STOP_EVENT.clear(); SENDER_THREAD = None`.  A worker that polls
`STOP_EVENT` within the 2-second join window (`responsive = true`)
observes the set event and exits before the join returns; a worker stuck in
a blocking operation longer than the timeout does not exit, survives the
timed-out join, and — the global no longer referencing it — keeps running
as an untracked thread, while the subsequent `STOP_EVENT.clear()` removes
the only cancellation signal it could still observe. -/

/-- One transmission-loop worker thread; `responsive` records whether it
polls the stop event within the join timeout. -/
structure Worker where
  responsive : Bool
deriving Repr, DecidableEq

/-- Lifecycle state: the tracked `SENDER_THREAD`, the untracked but still
running workers, and the `STOP_EVENT` flag. -/
structure LifecycleState where
  sender : Option Worker
  orphans : List Worker
  stopEvent : Bool
deriving Repr, DecidableEq

/-- Embedding of `stop_worker()` from `app.py`: if a sender thread is
tracked, set the stop event and join it with a 2-second timeout (a
responsive worker exits; a stuck one keeps running untracked), then clear
the stop event and drop the thread reference. -/
def stop_worker (s : LifecycleState) : LifecycleState :=
  match s.sender with
  | none => { sender := none, orphans := s.orphans, stopEvent := false }
  | some w =>
    { sender := none,
      orphans := if w.responsive then s.orphans else w :: s.orphans,
      stopEvent := false }

/-- Embedding of the `/start` route's thread management: `stop_worker()`
first, then (under `STATE_LOCK`) `STOP_EVENT.clear()` and the spawn of the
new worker thread, which becomes the tracked sender. -/
def start (w : Worker) (s : LifecycleState) : LifecycleState :=
  let s1 := stop_worker s
  { sender := some w, orphans := s1.orphans, stopEvent := false }

/-- Number of transmission loops currently running. -/
def liveLoops (s : LifecycleState) : Nat :=
  (if s.sender.isSome then 1 else 0) + s.orphans.length

/-! ## Colour / gradient functions (`hsv_to_rgb`, `lerp`, `lerp_rgb`,
`gradient_preset_color` in `app.py`)

Python float arithmetic on these code paths is modelled as exact rational
arithmetic over `ℚ`; Python's `int(x)` (truncation toward zero) is
`pyInt`.  The preset stop positions (e.g. `0.15`) are taken as the exact
rationals they denote.  In `gradient_preset_color` the parallel lists
`stops` / `pos` are modelled as one list of (stop, position) pairs walked
by `segment_color`, exactly mirroring the `for i in range(len(pos)-1)`
loop; the positions of every preset are strictly increasing, so the
division `(t-pos[i])/(pos[i+1]-pos[i])` never divides by zero on a taken
branch. -/

/-- Python `int()`: truncation toward zero on a rational. -/
def pyInt (x : ℚ) : ℤ := if 0 ≤ x then ⌊x⌋ else ⌈x⌉

/-- Embedding of `hsv_to_rgb(h, s, v)` from `app.py`: `i = int(h*6.0)`,
`f = h*6.0 - i`, the six sector cases on `i % 6`, and `int(x*255)` per
component. -/
def hsv_to_rgb (h s v : ℚ) : ℤ × ℤ × ℤ :=
  let i0 : ℤ := pyInt (h * 6)
  let f : ℚ := h * 6 - (i0 : ℚ)
  let p := v * (1 - s)
  let q := v * (1 - f * s)
  let t := v * (1 - (1 - f) * s)
  let i := i0 % 6
  let rgb : ℚ × ℚ × ℚ :=
    if i = 0 then (v, t, p)
    else if i = 1 then (q, v, p)
    else if i = 2 then (p, v, t)
    else if i = 3 then (p, q, v)
    else if i = 4 then (t, p, v)
    else (v, p, q)
  (pyInt (rgb.1 * 255), pyInt (rgb.2.1 * 255), pyInt (rgb.2.2 * 255))

/-- Embedding of `lerp(a, b, t)`. -/
def lerp (a b t : ℚ) : ℚ := a + (b - a) * t

/-- Embedding of `lerp_rgb(a, b, t)`: componentwise `int(lerp(...))`. -/
def lerp_rgb (a b : ℤ × ℤ × ℤ) (t : ℚ) : ℤ × ℤ × ℤ :=
  (pyInt (lerp (a.1 : ℚ) (b.1 : ℚ) t),
   pyInt (lerp (a.2.1 : ℚ) (b.2.1 : ℚ) t),
   pyInt (lerp (a.2.2 : ℚ) (b.2.2 : ℚ) t))

/-- The segment-search loop of `gradient_preset_color`: walk consecutive
(stop, position) pairs and interpolate on the first segment with
`pos[i] <= t <= pos[i+1]`; past the last segment return the default, which
every call site instantiates with `stops[-1]`. -/
def segment_color (t : ℚ) (dflt : ℤ × ℤ × ℤ) :
    List ((ℤ × ℤ × ℤ) × ℚ) → ℤ × ℤ × ℤ
  | (s1, p1) :: (s2, p2) :: rest =>
    if p1 ≤ t ∧ t ≤ p2 then lerp_rgb s1 s2 ((t - p1) / (p2 - p1))
    else segment_color t dflt ((s2, p2) :: rest)
  | _ => dflt

/-- The `fire` preset's stops and positions. -/
def fire_stops : List ((ℤ × ℤ × ℤ) × ℚ) :=
  [((0, 0, 0), 0), ((120, 0, 0), 15/100), ((220, 40, 0), 35/100),
   ((255, 140, 0), 60/100), ((255, 220, 0), 85/100), ((255, 255, 255), 1)]

/-- The `ocean` preset's stops and positions. -/
def ocean_stops : List ((ℤ × ℤ × ℤ) × ℚ) :=
  [((0, 10, 40), 0), ((0, 90, 160), 4/10), ((0, 180, 255), 8/10),
   ((120, 220, 255), 1)]

/-- The `sunset` preset's stops and positions. -/
def sunset_stops : List ((ℤ × ℤ × ℤ) × ℚ) :=
  [((120, 0, 80), 0), ((200, 40, 0), 35/100), ((255, 120, 0), 7/10),
   ((255, 220, 120), 1)]

/-- The `ice` preset's stops and positions. -/
def ice_stops : List ((ℤ × ℤ × ℤ) × ℚ) :=
  [((255, 255, 255), 0), ((200, 240, 255), 25/100), ((160, 220, 255), 5/10),
   ((120, 200, 255), 75/100), ((80, 180, 255), 1)]

/-- Embedding of `gradient_preset_color(t, preset)` from `app.py`: clamp
`t` to `[0, 1]`, dispatch on the preset name (HSV sweep for `rainbow`,
piecewise-linear stop interpolation for the named presets, white for
anything else). -/
def gradient_preset_color (t : ℚ) (preset : String) : ℤ × ℤ × ℤ :=
  let t' := max 0 (min 1 t)
  if preset = "rainbow" then hsv_to_rgb t' 1 1
  else if preset = "fire" then segment_color t' (255, 255, 255) fire_stops
  else if preset = "ocean" then segment_color t' (120, 220, 255) ocean_stops
  else if preset = "sunset" then segment_color t' (255, 220, 120) sunset_stops
  else if preset = "ice" then segment_color t' (80, 180, 255) ice_stops
  else (255, 255, 255)

/-- All three components of an RGB triple are bytes. -/
def inByteRange (c : ℤ × ℤ × ℤ) : Prop :=
  0 ≤ c.1 ∧ c.1 ≤ 255 ∧ 0 ≤ c.2.1 ∧ c.2.1 ≤ 255 ∧ 0 ≤ c.2.2 ∧ c.2.2 ≤ 255

instance (c : ℤ × ℤ × ℤ) : Decidable (inByteRange c) := by
  unfold inByteRange
  infer_instance

/-! ### DDP loop lemmas -/

/-- Unfolding `send_ddp_loop` when bytes remain: one chunk of
`pay = min 1200 (total - offset)` bytes is emitted and the loop continues at
`offset + pay`. -/
theorem send_ddp_loop_cons (rgb : List Nat) (c s offset idx fuel : Nat)
    (h : offset < rgb.length) :
    send_ddp_loop rgb c s offset idx (fuel + 1) =
      { header := ddp_header offset (min 1200 (rgb.length - offset)) c ((s + idx) % 256)
          (decide (offset + min 1200 (rgb.length - offset) ≥ rgb.length)),
        payload := (rgb.drop offset).take (min 1200 (rgb.length - offset)) } ::
        send_ddp_loop rgb c s (offset + min 1200 (rgb.length - offset)) (idx + 1) fuel := by
  simp [send_ddp_loop, h, MAX_PAYLOAD]

/-- The loop emits nothing once the offset has reached the end of the buffer. -/
theorem send_ddp_loop_nil (rgb : List Nat) (c s offset idx fuel : Nat)
    (h : rgb.length ≤ offset) :
    send_ddp_loop rgb c s offset idx fuel = [] := by
  cases fuel <;> simp [send_ddp_loop, Nat.not_lt.mpr h]

/-- With fuel left and bytes remaining, the loop emits at least one chunk. -/
theorem send_ddp_loop_ne_nil (rgb : List Nat) (c s offset idx fuel : Nat)
    (h : offset < rgb.length) (hf : 1 ≤ fuel) :
    send_ddp_loop rgb c s offset idx fuel ≠ [] := by
  obtain ⟨g, rfl⟩ : ∃ g, fuel = g + 1 := ⟨fuel - 1, by omega⟩
  rw [send_ddp_loop_cons rgb c s offset idx g h]
  simp

/-- Decoding the big-endian offset field of a DDP header recovers the offset
(modulo 2^32). -/
theorem decodeOffset_ddp_header (o l c q : Nat) (p : Bool) (pl : List Nat) :
    decodeOffset { header := ddp_header o l c q p, payload := pl } = o % 2 ^ 32 := by
  show ((o >>> 24) % 256) * 2 ^ 24 + ((o >>> 16) % 256) * 2 ^ 16 +
      ((o >>> 8) % 256) * 2 ^ 8 + o % 256 = o % 2 ^ 32
  simp only [Nat.shiftRight_eq_div_pow]
  norm_num
  omega

/-- The PUSH bit of a built header is exactly the `push` argument. -/
theorem pushBit_ddp_header (o l c q : Nat) (p : Bool) (pl : List Nat) :
    pushBit { header := ddp_header o l c q p, payload := pl } = p := by
  cases p
  · simp [pushBit, ddp_header]
  · simp only [pushBit, ddp_header, if_true, List.getD_cons_zero]
    decide

/-- The sequence byte of a built header is the `seq` argument mod 256. -/
theorem seqByte_ddp_header (o l c q : Nat) (p : Bool) (pl : List Nat) :
    seqByte { header := ddp_header o l c q p, payload := pl } = q % 256 := rfl

/-- Concatenating the payloads emitted from `offset` onwards yields exactly
the suffix of the buffer starting at `offset`. -/
theorem ddp_loop_flatten (rgb : List Nat) (c s : Nat) :
    ∀ fuel offset idx, rgb.length - offset ≤ fuel →
      ((send_ddp_loop rgb c s offset idx fuel).map DdpChunk.payload).flatten =
        rgb.drop offset := by
  intro fuel
  induction fuel with
  | zero =>
    intro offset idx hf
    rw [send_ddp_loop_nil rgb c s offset idx 0 (by omega)]
    simp [List.drop_eq_nil_of_le (show rgb.length ≤ offset by omega)]
  | succ fuel ih =>
    intro offset idx hf
    by_cases h : offset < rgb.length
    · rw [send_ddp_loop_cons rgb c s offset idx fuel h]
      rw [List.map_cons, List.flatten_cons,
        ih (offset + min 1200 (rgb.length - offset)) (idx + 1) (by omega)]
      rw [← List.drop_drop]
      exact List.take_append_drop _ _
    · rw [send_ddp_loop_nil rgb c s offset idx _ (by omega)]
      simp [List.drop_eq_nil_of_le (show rgb.length ≤ offset by omega)]

/-- Every chunk payload has length `min 1200 (bytes remaining at its
offset)`; in particular it is at most 1200 bytes, and every chunk except the
final one carries exactly 1200 bytes. -/
theorem ddp_loop_payload_length (rgb : List Nat) (c s : Nat) :
    ∀ fuel offset idx, rgb.length - offset ≤ fuel →
      ∀ i ch, (send_ddp_loop rgb c s offset idx fuel)[i]? = some ch →
        ch.payload.length ≤ 1200 ∧
        (i + 1 < (send_ddp_loop rgb c s offset idx fuel).length →
          ch.payload.length = 1200) := by
  intro fuel
  induction fuel with
  | zero =>
    intro offset idx hf i ch hch
    rw [send_ddp_loop_nil rgb c s offset idx 0 (by omega)] at hch
    simp at hch
  | succ fuel ih =>
    intro offset idx hf i ch hch
    by_cases hlt : offset < rgb.length
    · rw [send_ddp_loop_cons rgb c s offset idx fuel hlt] at hch ⊢
      cases i with
      | zero =>
        rw [List.getElem?_cons_zero, Option.some_inj] at hch
        subst hch
        constructor
        · simp only [List.length_take, List.length_drop]
          omega
        · intro hlen
          rw [List.length_cons] at hlen
          have hne : send_ddp_loop rgb c s (offset + min 1200 (rgb.length - offset))
              (idx + 1) fuel ≠ [] := by
            intro hnil
            rw [hnil] at hlen
            simp at hlen
          have hlt2 : offset + min 1200 (rgb.length - offset) < rgb.length := by
            by_contra hge
            exact hne (send_ddp_loop_nil rgb c s _ _ _ (by omega))
          simp only [List.length_take, List.length_drop]
          omega
      | succ i =>
        rw [List.getElem?_cons_succ] at hch
        rw [List.length_cons]
        have := ih (offset + min 1200 (rgb.length - offset)) (idx + 1) (by omega) i ch hch
        exact ⟨this.1, fun hi => this.2 (by omega)⟩
    · rw [send_ddp_loop_nil rgb c s offset idx _ (by omega)] at hch
      simp at hch

/-- The offset recorded in chunk `i`'s header equals the loop's entry offset
plus the total length of the payloads of the chunks before it. -/
theorem ddp_loop_decodeOffset (rgb : List Nat) (c s : Nat) (hlen : rgb.length < 2 ^ 32) :
    ∀ fuel offset idx, rgb.length - offset ≤ fuel → offset ≤ rgb.length →
      ∀ i ch, (send_ddp_loop rgb c s offset idx fuel)[i]? = some ch →
        decodeOffset ch =
          offset + ((((send_ddp_loop rgb c s offset idx fuel).take i).map
            (fun c' => c'.payload.length)).sum) := by
  intro fuel
  induction fuel with
  | zero =>
    intro offset idx hf _hoff i ch hch
    rw [send_ddp_loop_nil rgb c s offset idx 0 (by omega)] at hch
    simp at hch
  | succ fuel ih =>
    intro offset idx hf hoff i ch hch
    by_cases hlt : offset < rgb.length
    · rw [send_ddp_loop_cons rgb c s offset idx fuel hlt] at hch ⊢
      cases i with
      | zero =>
        rw [List.getElem?_cons_zero, Option.some_inj] at hch
        subst hch
        simp only [List.take_zero, List.map_nil, List.sum_nil, Nat.add_zero]
        rw [decodeOffset_ddp_header]
        omega
      | succ i =>
        rw [List.getElem?_cons_succ] at hch
        rw [List.take_succ_cons, List.map_cons, List.sum_cons]
        rw [ih (offset + min 1200 (rgb.length - offset)) (idx + 1) (by omega) (by omega)
          i ch hch]
        have hplen : ((rgb.drop offset).take (min 1200 (rgb.length - offset))).length =
            min 1200 (rgb.length - offset) := by
          simp only [List.length_take, List.length_drop]
          omega
        rw [hplen]
        omega
    · rw [send_ddp_loop_nil rgb c s offset idx _ (by omega)] at hch
      simp at hch

/-- The PUSH bit of chunk `i` is set exactly when `i` is the final chunk. -/
theorem ddp_loop_pushBit (rgb : List Nat) (c s : Nat) :
    ∀ fuel offset idx, rgb.length - offset ≤ fuel →
      ∀ i ch, (send_ddp_loop rgb c s offset idx fuel)[i]? = some ch →
        pushBit ch = decide (i + 1 = (send_ddp_loop rgb c s offset idx fuel).length) := by
  intro fuel
  induction fuel with
  | zero =>
    intro offset idx hf i ch hch
    rw [send_ddp_loop_nil rgb c s offset idx 0 (by omega)] at hch
    simp at hch
  | succ fuel ih =>
    intro offset idx hf i ch hch
    by_cases hlt : offset < rgb.length
    · rw [send_ddp_loop_cons rgb c s offset idx fuel hlt] at hch ⊢
      cases i with
      | zero =>
        rw [List.getElem?_cons_zero, Option.some_inj] at hch
        subst hch
        rw [pushBit_ddp_header, List.length_cons]
        by_cases hend : offset + min 1200 (rgb.length - offset) ≥ rgb.length
        · rw [send_ddp_loop_nil rgb c s _ _ _ (by omega)]
          simp [hend]
        · have hne := send_ddp_loop_ne_nil rgb c s
            (offset + min 1200 (rgb.length - offset)) (idx + 1) fuel (by omega) (by omega)
          have hpos : 1 ≤ (send_ddp_loop rgb c s (offset + min 1200 (rgb.length - offset))
              (idx + 1) fuel).length := List.length_pos.mpr hne
          simp only [ge_iff_le, decide_eq_decide]
          omega
      | succ i =>
        rw [List.getElem?_cons_succ] at hch
        rw [List.length_cons]
        rw [ih (offset + min 1200 (rgb.length - offset)) (idx + 1) (by omega) i ch hch]
        simp only [decide_eq_decide]
        omega
    · rw [send_ddp_loop_nil rgb c s offset idx _ (by omega)] at hch
      simp at hch

/-- The sequence byte of chunk `i` is `(seq + idx + i) mod 256`. -/
theorem ddp_loop_seqByte (rgb : List Nat) (c s : Nat) :
    ∀ fuel offset idx, rgb.length - offset ≤ fuel →
      ∀ i ch, (send_ddp_loop rgb c s offset idx fuel)[i]? = some ch →
        seqByte ch = (s + idx + i) % 256 := by
  intro fuel
  induction fuel with
  | zero =>
    intro offset idx hf i ch hch
    rw [send_ddp_loop_nil rgb c s offset idx 0 (by omega)] at hch
    simp at hch
  | succ fuel ih =>
    intro offset idx hf i ch hch
    by_cases hlt : offset < rgb.length
    · rw [send_ddp_loop_cons rgb c s offset idx fuel hlt] at hch
      cases i with
      | zero =>
        rw [List.getElem?_cons_zero, Option.some_inj] at hch
        subst hch
        rw [seqByte_ddp_header]
        omega
      | succ i =>
        rw [List.getElem?_cons_succ] at hch
        rw [ih (offset + min 1200 (rgb.length - offset)) (idx + 1) (by omega) i ch hch]
        have harg : s + (idx + 1) + i = s + idx + (i + 1) := by omega
        rw [harg]
    · rw [send_ddp_loop_nil rgb c s offset idx _ (by omega)] at hch
      simp at hch

/-- Evaluation of the spec's DDP scenario: a 3000-byte payload with
channel 1 and seq 0 yields exactly three chunks. -/
theorem ddp_scenario_eval :
    send_ddp_frame (List.replicate 3000 (0 : Nat)) 1 0 =
      [{ header := ddp_header 0 1200 1 0 false, payload := List.replicate 1200 0 },
       { header := ddp_header 1200 1200 1 1 false, payload := List.replicate 1200 0 },
       { header := ddp_header 2400 600 1 2 true, payload := List.replicate 600 0 }] := by
  have hlen : (List.replicate 3000 (0 : Nat)).length = 3000 := List.length_replicate ..
  unfold send_ddp_frame
  rw [hlen]
  rw [send_ddp_loop_cons _ 1 0 0 0 3000 (by rw [hlen]; norm_num)]
  simp only [hlen]
  norm_num [List.drop_replicate, List.take_replicate]
  rw [show (3000 : Nat) = 2999 + 1 from rfl,
    send_ddp_loop_cons _ 1 0 1200 1 2999 (by rw [hlen]; norm_num)]
  simp only [hlen]
  norm_num [List.drop_replicate, List.take_replicate]
  rw [show (2999 : Nat) = 2998 + 1 from rfl,
    send_ddp_loop_cons _ 1 0 2400 2 2998 (by rw [hlen]; norm_num)]
  simp only [hlen]
  norm_num [List.drop_replicate, List.take_replicate]
  exact send_ddp_loop_nil _ 1 0 3000 3 2998 (by rw [hlen])

/-- C1: for every RGB payload (of any length below the 2^32 range of the
header's offset field), the DDP encoder splits it into chunks whose payloads
concatenate back to the original payload; each chunk's header carries, as its
big-endian offset field, the running byte offset of that chunk within the
frame (the total length of the payloads emitted before it); and every chunk
payload is at most 1200 bytes and — except possibly the final chunk — an
exact multiple of 3. -/
theorem ddp_frame_reconstruction (rgb : List Nat) (channel seq : Nat)
    (hlen : rgb.length < 2 ^ 32) :
    (((send_ddp_frame rgb channel seq).map DdpChunk.payload).flatten = rgb) ∧
    (∀ i (h : i < (send_ddp_frame rgb channel seq).length),
      decodeOffset ((send_ddp_frame rgb channel seq)[i]) =
        ((((send_ddp_frame rgb channel seq).take i).map
          (fun ch => ch.payload.length)).sum)) ∧
    (∀ i (h : i < (send_ddp_frame rgb channel seq).length),
      ((send_ddp_frame rgb channel seq)[i]).payload.length ≤ 1200 ∧
      (i + 1 < (send_ddp_frame rgb channel seq).length →
        ((send_ddp_frame rgb channel seq)[i]).payload.length % 3 = 0)) := by
  refine ⟨?_, ?_, ?_⟩
  · have := ddp_loop_flatten rgb channel seq (rgb.length + 1) 0 0 (by omega)
    simpa [send_ddp_frame] using this
  · intro i h
    have := ddp_loop_decodeOffset rgb channel seq hlen (rgb.length + 1) 0 0
      (by omega) (by omega) i ((send_ddp_frame rgb channel seq)[i])
      (List.getElem?_eq_getElem h)
    simpa [send_ddp_frame] using this
  · intro i h
    have := ddp_loop_payload_length rgb channel seq (rgb.length + 1) 0 0
      (by omega) i ((send_ddp_frame rgb channel seq)[i])
      (List.getElem?_eq_getElem h)
    refine ⟨this.1, fun hi => ?_⟩
    have h1200 := this.2 (by simpa [send_ddp_frame] using hi)
    rw [h1200]

/-- Witness for C1 at the concrete payload `[1, 2, 3]`. -/
theorem ddp_frame_reconstruction_witness :
    (([1, 2, 3] : List Nat).length < 2 ^ 32) ∧
    ((((send_ddp_frame [1, 2, 3] 1 0).map DdpChunk.payload).flatten = [1, 2, 3]) ∧
     (∀ i (h : i < (send_ddp_frame [1, 2, 3] 1 0).length),
       decodeOffset ((send_ddp_frame [1, 2, 3] 1 0)[i]) =
         ((((send_ddp_frame [1, 2, 3] 1 0).take i).map
           (fun ch => ch.payload.length)).sum)) ∧
     (∀ i (h : i < (send_ddp_frame [1, 2, 3] 1 0).length),
       ((send_ddp_frame [1, 2, 3] 1 0)[i]).payload.length ≤ 1200 ∧
       (i + 1 < (send_ddp_frame [1, 2, 3] 1 0).length →
         ((send_ddp_frame [1, 2, 3] 1 0)[i]).payload.length % 3 = 0))) :=
  ⟨by norm_num, ddp_frame_reconstruction [1, 2, 3] 1 0 (by norm_num)⟩

/-- C2: for every non-empty RGB payload the DDP encoder emits at least one
datagram, the PUSH bit is set on a datagram exactly when it is the last one,
and the `i`-th datagram's sequence byte is `(seed + i) mod 256`; moreover the
spec's scenario holds: a 3000-byte payload with channel 1 and seq 0 yields
three chunks of payload sizes `[1200, 1200, 600]`, header offsets
`[0, 1200, 2400]` and PUSH flags `[false, false, true]`. -/
theorem ddp_push_last_and_sequence :
    (∀ (rgb : List Nat) (channel seq : Nat), rgb ≠ [] →
      send_ddp_frame rgb channel seq ≠ [] ∧
      ∀ i (h : i < (send_ddp_frame rgb channel seq).length),
        (pushBit ((send_ddp_frame rgb channel seq)[i]) = true ↔
          i + 1 = (send_ddp_frame rgb channel seq).length) ∧
        seqByte ((send_ddp_frame rgb channel seq)[i]) = (seq + i) % 256) ∧
    ((send_ddp_frame (List.replicate 3000 0) 1 0).map (fun ch => ch.payload.length) =
      [1200, 1200, 600] ∧
     (send_ddp_frame (List.replicate 3000 0) 1 0).map decodeOffset = [0, 1200, 2400] ∧
     (send_ddp_frame (List.replicate 3000 0) 1 0).map pushBit = [false, false, true]) := by
  constructor
  · intro rgb channel seq hne
    have hpos : 0 < rgb.length := List.length_pos.mpr hne
    constructor
    · exact send_ddp_loop_ne_nil rgb channel seq 0 0 (rgb.length + 1) hpos (by omega)
    · intro i h
      constructor
      · have := ddp_loop_pushBit rgb channel seq (rgb.length + 1) 0 0 (by omega) i
          ((send_ddp_frame rgb channel seq)[i]) (List.getElem?_eq_getElem h)
        rw [show (send_ddp_loop rgb channel seq 0 0 (rgb.length + 1)) =
          send_ddp_frame rgb channel seq from rfl] at this
        rw [this]
        simp
      · have := ddp_loop_seqByte rgb channel seq (rgb.length + 1) 0 0 (by omega) i
          ((send_ddp_frame rgb channel seq)[i]) (List.getElem?_eq_getElem h)
        simpa using this
  · rw [ddp_scenario_eval]
    refine ⟨?_, ?_, ?_⟩
    · simp only [List.map_cons, List.map_nil, List.length_replicate]
    · simp only [List.map_cons, List.map_nil, decodeOffset_ddp_header]
      norm_num
    · simp only [List.map_cons, List.map_nil, pushBit_ddp_header]

/-- Witness for C2 at the concrete payload `[7, 8, 9]`. -/
theorem ddp_push_last_and_sequence_witness :
    (([7, 8, 9] : List Nat) ≠ []) ∧
    (send_ddp_frame [7, 8, 9] 2 5 ≠ [] ∧
     ∀ i (h : i < (send_ddp_frame [7, 8, 9] 2 5).length),
       (pushBit ((send_ddp_frame [7, 8, 9] 2 5)[i]) = true ↔
         i + 1 = (send_ddp_frame [7, 8, 9] 2 5).length) ∧
       seqByte ((send_ddp_frame [7, 8, 9] 2 5)[i]) = (5 + i) % 256) :=
  ⟨by simp, ddp_push_last_and_sequence.1 [7, 8, 9] 2 5 (by simp)⟩

/-! ### Simple / WLED claim theorems -/

/-- C4 counterexample: at the concrete payload `[0]`, the `app.py` Simple
encoder emits one datagram that is the bare payload — it is not the 9-byte
magic-framed packet the claim describes, and its length is `1`, not
`9 + 1`. -/
theorem send_simple_udp_frame_counterexample :
    send_simple_udp_frame [0] = [[0]] ∧
    ([0] : List Nat) ≠ build_simple_packet [0] ∧
    ([0] : List Nat).length ≠ 9 + ([0] : List Nat).length := by
  decide

/-- C4 (amended): the magic-tag framing is implemented by
`build_simple_packet` of `app.bak.py` — its output is the 7-byte tag
`ST16x64`, a width byte, a height byte, then the payload, of total length
`9 + len(payload)` — while the current `app.py` Simple encoder
`send_simple_udp_frame` emits exactly one datagram equal to the raw RGB
payload itself. -/
theorem simple_protocol_packets (payload : List Nat) :
    send_simple_udp_frame payload = [payload] ∧
    build_simple_packet payload = SIMPLE_MAGIC ++ [MATRIX_W, MATRIX_H] ++ payload ∧
    (build_simple_packet payload).length = 9 + payload.length ∧
    SIMPLE_MAGIC.length = 7 := by
  refine ⟨rfl, rfl, ?_, rfl⟩
  simp [build_simple_packet, SIMPLE_MAGIC]
  omega

/-- C3: at the concrete 2-pixel buffer `[1, 2, 3, 4, 5, 6]`, the `app.py`
WLED sender emits a single datagram equal to the raw buffer, whose first
four bytes are not a DNRGB header (protocol id 4, timeout, big-endian start
index); the DNRGB framing described by the claim is what `wled_udp_send` of
`app.bak.py` produces at the same input. -/
theorem send_wled_realtime_frame_bug :
    send_wled_realtime_frame [1, 2, 3, 4, 5, 6] = [[1, 2, 3, 4, 5, 6]] ∧
    ((send_wled_realtime_frame [1, 2, 3, 4, 5, 6]).headD []).take 4 ≠ [4, 2, 0, 0] ∧
    wled_udp_send [1, 2, 3, 4, 5, 6] 2 2 = [([4, 2, 0, 0], [1, 2, 3, 4, 5, 6])] := by
  decide

/-- C9 counterexample: on a zero-length buffer the DDP encoder emits no
datagram at all, not the single empty-payload datagram the claim states. -/
theorem ddp_empty_counterexample :
    send_ddp_frame [] 1 0 = [] ∧ (send_ddp_frame [] 1 0).length ≠ 1 := by
  decide

/-- C9 (amended): a zero-length input yields a single empty datagram from
the Simple sender (and from `app.py`'s raw WLED sender), and no datagram at
all from the DDP encoder and from the DNRGB encoder `wled_udp_send`. -/
theorem empty_input_behaviour :
    send_simple_udp_frame [] = [[]] ∧
    (∀ channel seq, send_ddp_frame [] channel seq = []) ∧
    (∀ t, wled_udp_send [] 0 t = []) ∧
    send_wled_realtime_frame [] = [[]] := by
  refine ⟨rfl, fun channel seq => rfl, fun t => rfl, rfl⟩

/-! ### Generic lemmas about flattened uniform blocks -/

/-- Flattening blocks of uniform length `k` yields `count * k` elements. -/
theorem flatten_uniform_length (k : Nat) :
    ∀ L : List (List Nat), (∀ b ∈ L, b.length = k) →
      L.flatten.length = L.length * k := by
  intro L
  induction L with
  | nil => intro _; simp
  | cons b L ih =>
    intro h
    simp only [List.flatten_cons, List.length_append, List.length_cons]
    rw [h b (List.mem_cons_self b L), ih (fun b' hb' => h b' (List.mem_cons_of_mem b hb'))]
    ring

/-- Extracting block `y` back out of a flattened list of uniform blocks. -/
theorem flatten_uniform_block (k : Nat) :
    ∀ (L : List (List Nat)), (∀ b ∈ L, b.length = k) →
      ∀ y (hy : y < L.length), (L.flatten.drop (y * k)).take k = L[y] := by
  intro L
  induction L with
  | nil => intro _ y hy; simp at hy
  | cons b L ih =>
    intro h y hy
    cases y with
    | zero =>
      simp only [Nat.zero_mul, List.drop_zero, List.flatten_cons, List.getElem_cons_zero]
      exact List.take_left' (h b (List.mem_cons_self b L))
    | succ y =>
      have hb : b.length = k := h b (List.mem_cons_self b L)
      simp only [List.flatten_cons, List.getElem_cons_succ]
      have hdrop : (b ++ L.flatten).drop ((y + 1) * k) = L.flatten.drop (y * k) := by
        have : (y + 1) * k = b.length + y * k := by rw [hb]; ring
        rw [this, ← List.drop_drop, List.drop_left]
      rw [hdrop]
      exact ih (fun b' hb' => h b' (List.mem_cons_of_mem b hb')) y (by simpa using hy)

/-- A list of length `n * k` is the flattening of its `n` consecutive
blocks of length `k`. -/
theorem blocks_flatten (k : Nat) :
    ∀ n (L : List Nat), L.length = n * k →
      ((List.range n).map (fun i => (L.drop (i * k)).take k)).flatten = L := by
  intro n
  induction n with
  | zero =>
    intro L hL
    simp at hL
    simp [hL]
  | succ n ih =>
    intro L hL
    rw [List.range_succ_eq_map]
    simp only [List.map_cons, List.map_map, List.flatten_cons, Nat.zero_mul,
      List.drop_zero]
    have hstep : ∀ i : Nat, ((L.drop (Nat.succ i * k)).take k) =
        (((L.drop k).drop (i * k)).take k) := by
      intro i
      have h1 : (L.drop k).drop (i * k) = L.drop (Nat.succ i * k) := by
        rw [List.drop_drop]
        congr 1
        simp only [Nat.succ_eq_add_one]
        ring
      rw [h1]
    have hmapeq : (List.range n).map ((fun i => (L.drop (i * k)).take k) ∘ Nat.succ) =
        (List.range n).map (fun i => ((L.drop k).drop (i * k)).take k) := by
      apply List.map_congr_left
      intro i _
      exact hstep i
    have hlen : (L.drop k).length = n * k := by
      rw [List.length_drop, hL]
      have : (n + 1) * k = n * k + k := by ring
      omega
    rw [hmapeq, ih (L.drop k) hlen]
    exact List.take_append_drop k L

/-- Reversing `range n` is the same as mapping `n - 1 - ·` over it. -/
theorem range_reverse_map (n : Nat) :
    (List.range n).reverse = (List.range n).map (fun i => n - 1 - i) := by
  apply List.ext_getElem
  · simp
  · intro i h1 h2
    simp [List.getElem_reverse, List.getElem_range]

/-- The code's odd-row loop writes exactly the reversed triplet sequence:
`reverse_triplets` equals flattening the reversed list of triplets. -/
theorem reverse_triplets_eq_reverse (width : Nat) (row : List Nat) :
    reverse_triplets width row = ((triplets width row).reverse).flatten := by
  unfold reverse_triplets triplets
  rw [← List.map_reverse, range_reverse_map, List.map_map]
  rfl

/-! ### Serpentine remap lemmas -/

/-- With `serpentine = true` the remap is the flattening of the processed
rows followed by the zero bytes of `out` beyond the written region. -/
theorem remap_serpentine_true_eq (buf : List Nat) (width height : Nat) :
    remap_serpentine buf width height true =
      ((List.range height).map (fun y =>
        if y % 2 == 0 then rowOf buf width y
        else reverse_triplets width (rowOf buf width y))).flatten
      ++ List.replicate (buf.length - height * (width * 3)) 0 := by
  simp [remap_serpentine, rowOf]

/-- A triplet-reversed full row keeps its length. -/
theorem reverse_triplets_length (width : Nat) (row : List Nat)
    (h : width * 3 ≤ row.length) :
    (reverse_triplets width row).length = width * 3 := by
  unfold reverse_triplets
  rw [flatten_uniform_length 3 _ ?uni]
  case uni =>
    intro b hb
    simp only [List.mem_map, List.mem_range] at hb
    obtain ⟨j, hj, rfl⟩ := hb
    simp only [List.length_take, List.length_drop]
    have hm : (width - 1 - j + 1) * 3 ≤ width * 3 :=
      Nat.mul_le_mul_right 3 (by omega)
    omega
  simp

/-- Every row of a large-enough buffer has the full row stride. -/
theorem rowOf_length (buf : List Nat) (width height y : Nat)
    (hlen : height * (width * 3) ≤ buf.length) (hy : y < height) :
    (rowOf buf width y).length = width * 3 := by
  unfold rowOf
  simp only [List.length_take, List.length_drop]
  have h2 : (y + 1) * (width * 3) ≤ height * (width * 3) :=
    Nat.mul_le_mul_right _ (by omega)
  have h1 : y * (width * 3) + width * 3 ≤ height * (width * 3) := by
    calc y * (width * 3) + width * 3 = (y + 1) * (width * 3) := by ring
    _ ≤ height * (width * 3) := h2
  have h3 : y * (width * 3) + width * 3 ≤ buf.length := le_trans h1 hlen
  omega

/-- Each processed row of the serpentine remap has the full row stride. -/
theorem remap_rows_uniform (buf : List Nat) (width height : Nat)
    (hlen : height * (width * 3) ≤ buf.length) :
    ∀ b ∈ (List.range height).map (fun y =>
        if y % 2 == 0 then rowOf buf width y
        else reverse_triplets width (rowOf buf width y)),
      b.length = width * 3 := by
  intro b hb
  simp only [List.mem_map, List.mem_range] at hb
  obtain ⟨y, hy, rfl⟩ := hb
  have hrow := rowOf_length buf width height y hlen hy
  cases h2 : y % 2 == 0
  · simp only [h2, if_false, Bool.false_eq_true]
    exact reverse_triplets_length width _ (le_of_eq hrow.symm)
  · simpa [h2] using hrow

/-- The serpentine remap of a buffer covering at least `height` full rows
has the same length as its input. -/
theorem remap_serpentine_length (buf : List Nat) (width height : Nat)
    (hlen : height * (width * 3) ≤ buf.length) :
    (remap_serpentine buf width height true).length = buf.length := by
  rw [remap_serpentine_true_eq]
  rw [List.length_append, List.length_replicate,
    flatten_uniform_length (width * 3) _ (remap_rows_uniform buf width height hlen)]
  simp only [List.length_map, List.length_range]
  omega

/-- Row `y` of the serpentine remap is the input row for even `y` and the
code's triplet-reversed row for odd `y` (exact-length buffer). -/
theorem remap_serpentine_row (buf : List Nat) (width height y : Nat)
    (hlen : buf.length = height * (width * 3)) (hy : y < height) :
    rowOf (remap_serpentine buf width height true) width y =
      if y % 2 == 0 then rowOf buf width y
      else reverse_triplets width (rowOf buf width y) := by
  have hblock := flatten_uniform_block (width * 3) _
    (remap_rows_uniform buf width height (le_of_eq hlen.symm)) y
    (by simpa using hy)
  have hrowOf : ∀ X : List Nat, rowOf X width y =
      (X.drop (y * (width * 3))).take (width * 3) := fun X => rfl
  rw [remap_serpentine_true_eq]
  rw [show buf.length - height * (width * 3) = 0 by omega]
  rw [List.replicate_zero, List.append_nil, hrowOf, hblock]
  simp only [List.getElem_map, List.getElem_range]

/-- Each full-row triplet has exactly three bytes. -/
theorem triplets_uniform (width : Nat) (row : List Nat)
    (h : row.length = width * 3) :
    ∀ b ∈ triplets width row, b.length = 3 := by
  intro b hb
  simp only [triplets, List.mem_map, List.mem_range] at hb
  obtain ⟨x, hx, rfl⟩ := hb
  simp only [tripletOf, List.length_take, List.length_drop]
  have hm : (x + 1) * 3 ≤ width * 3 := Nat.mul_le_mul_right 3 (by omega)
  omega

/-- A full row is the flattening of its triplets. -/
theorem triplets_flatten (width : Nat) (row : List Nat)
    (h : row.length = width * 3) :
    (triplets width row).flatten = row := by
  unfold triplets tripletOf
  exact blocks_flatten 3 width row h

/-- Reversing the triplets of a full row twice restores the row. -/
theorem reverse_triplets_involutive (width : Nat) (row : List Nat)
    (h : row.length = width * 3) :
    reverse_triplets width (reverse_triplets width row) = row := by
  have huni : ∀ b ∈ (triplets width row).reverse, b.length = 3 := by
    intro b hb
    exact triplets_uniform width row h b (List.mem_reverse.mp hb)
  have htrip : triplets width (reverse_triplets width row) =
      (triplets width row).reverse := by
    apply List.ext_getElem
    · simp [triplets]
    · intro j h1 h2
      simp only [triplets, List.getElem_map, List.getElem_range]
      unfold tripletOf
      rw [reverse_triplets_eq_reverse]
      exact flatten_uniform_block 3 _ huni j (by simpa [triplets] using h2)
  rw [reverse_triplets_eq_reverse width (reverse_triplets width row), htrip,
    List.reverse_reverse]
  exact triplets_flatten width row h

/-! ### Serpentine claim theorems -/

/-- C6: for a buffer of length `width*height*3`, the serpentine remap
returns a buffer of identical length whose even rows are the input rows
unchanged and whose odd rows are the input rows with their pixel triplets
in exactly reversed order. -/
theorem remap_serpentine_rows_spec (buf : List Nat) (width height : Nat)
    (hlen : buf.length = width * height * 3) :
    (remap_serpentine buf width height true).length = buf.length ∧
    ∀ y, y < height →
      rowOf (remap_serpentine buf width height true) width y =
        if y % 2 = 0 then rowOf buf width y
        else ((triplets width (rowOf buf width y)).reverse).flatten := by
  have hlen' : buf.length = height * (width * 3) := by rw [hlen]; ring
  constructor
  · exact remap_serpentine_length buf width height (le_of_eq hlen'.symm)
  · intro y hy
    rw [remap_serpentine_row buf width height y hlen' hy]
    rw [← reverse_triplets_eq_reverse]
    cases h2 : y % 2 == 0
    · have : ¬ (y % 2 = 0) := by simpa using h2
      simp [this]
    · have : y % 2 = 0 := by simpa using h2
      simp [this]

/-- Witness for C6 on a concrete 2x2 buffer. -/
theorem remap_serpentine_rows_spec_witness :
    (([10, 11, 12, 20, 21, 22, 30, 31, 32, 40, 41, 42] : List Nat).length = 2 * 2 * 3) ∧
    ((remap_serpentine [10, 11, 12, 20, 21, 22, 30, 31, 32, 40, 41, 42] 2 2 true).length =
      ([10, 11, 12, 20, 21, 22, 30, 31, 32, 40, 41, 42] : List Nat).length ∧
     ∀ y, y < 2 →
       rowOf (remap_serpentine [10, 11, 12, 20, 21, 22, 30, 31, 32, 40, 41, 42] 2 2 true) 2 y =
         if y % 2 = 0 then rowOf [10, 11, 12, 20, 21, 22, 30, 31, 32, 40, 41, 42] 2 y
         else ((triplets 2 (rowOf [10, 11, 12, 20, 21, 22, 30, 31, 32, 40, 41, 42] 2 y)).reverse).flatten) :=
  ⟨by decide,
   remap_serpentine_rows_spec [10, 11, 12, 20, 21, 22, 30, 31, 32, 40, 41, 42] 2 2 (by decide)⟩

/-- C7: the serpentine remap is its own inverse on buffers of length
`width*height*3`. -/
theorem remap_serpentine_involutive (buf : List Nat) (width height : Nat)
    (hlen : buf.length = width * height * 3) :
    remap_serpentine (remap_serpentine buf width height true) width height true = buf := by
  have hlen' : buf.length = height * (width * 3) := by rw [hlen]; ring
  have hout_len : (remap_serpentine buf width height true).length = buf.length :=
    remap_serpentine_length buf width height (le_of_eq hlen'.symm)
  rw [remap_serpentine_true_eq (remap_serpentine buf width height true) width height]
  rw [hout_len, show buf.length - height * (width * 3) = 0 by omega,
    List.replicate_zero, List.append_nil]
  have hmap : (List.range height).map (fun y =>
      if y % 2 == 0 then rowOf (remap_serpentine buf width height true) width y
      else reverse_triplets width (rowOf (remap_serpentine buf width height true) width y)) =
      (List.range height).map (fun y => rowOf buf width y) := by
    apply List.map_congr_left
    intro y hy
    rw [List.mem_range] at hy
    rw [remap_serpentine_row buf width height y hlen' hy]
    cases h2 : y % 2 == 0
    · simp only [h2, if_false, Bool.false_eq_true]
      exact reverse_triplets_involutive width _ (rowOf_length buf width height y
        (le_of_eq hlen'.symm) hy)
    · simp [h2]
  rw [hmap]
  unfold rowOf
  exact blocks_flatten (width * 3) height buf hlen'

/-- Witness for C7 on a concrete 2x2 buffer. -/
theorem remap_serpentine_involutive_witness :
    (([10, 11, 12, 20, 21, 22, 30, 31, 32, 40, 41, 42] : List Nat).length = 2 * 2 * 3) ∧
    remap_serpentine (remap_serpentine [10, 11, 12, 20, 21, 22, 30, 31, 32, 40, 41, 42]
      2 2 true) 2 2 true = [10, 11, 12, 20, 21, 22, 30, 31, 32, 40, 41, 42] :=
  ⟨by decide,
   remap_serpentine_involutive [10, 11, 12, 20, 21, 22, 30, 31, 32, 40, 41, 42] 2 2 (by decide)⟩

/-- C8 counterexample: a buffer of length 12 handed to `remap_serpentine`
with `width = 2`, `height = 1` (which requires 6 bytes) is not rejected:
with `serpentine = true` the call returns normally, processing the declared
single row and silently replacing the excess input bytes by zeros, and with
`serpentine = false` any mismatched buffer is returned unchanged. -/
theorem remap_serpentine_mismatch_counterexample :
    ([1, 2, 3, 4, 5, 6, 7, 8, 9, 10, 11, 12] : List Nat).length ≠ 2 * 1 * 3 ∧
    remap_serpentine [1, 2, 3, 4, 5, 6, 7, 8, 9, 10, 11, 12] 2 1 true =
      [1, 2, 3, 4, 5, 6, 0, 0, 0, 0, 0, 0] ∧
    remap_serpentine [1, 2, 3, 4] 2 1 false = [1, 2, 3, 4] := by
  decide

/-- C8 (amended): `remap_serpentine` performs no length validation and
never fails fast.  With `serpentine = false` it returns any buffer
unchanged, whatever its length; with `serpentine = true` it returns
normally on any buffer covering at least `height` full rows, producing a
buffer of the input's length in which the bytes beyond the processed rows
are zeros — a silently partial result rather than a rejection. -/
theorem remap_serpentine_no_validation (buf : List Nat) (width height : Nat) :
    remap_serpentine buf width height false = buf ∧
    (width * height * 3 ≤ buf.length →
      (remap_serpentine buf width height true).length = buf.length ∧
      (remap_serpentine buf width height true).drop (height * (width * 3)) =
        List.replicate (buf.length - height * (width * 3)) 0) := by
  constructor
  · rfl
  · intro hge
    have hge' : height * (width * 3) ≤ buf.length := by
      have : width * height * 3 = height * (width * 3) := by ring
      omega
    refine ⟨remap_serpentine_length buf width height hge', ?_⟩
    rw [remap_serpentine_true_eq]
    rw [List.drop_append_of_le_length]
    · rw [show height * (width * 3) =
        (((List.range height).map (fun y =>
          if y % 2 == 0 then rowOf buf width y
          else reverse_triplets width (rowOf buf width y))).flatten).length from ?_]
      · rw [List.drop_length]
        rfl
      · rw [flatten_uniform_length (width * 3) _ (remap_rows_uniform buf width height hge')]
        simp
    · rw [flatten_uniform_length (width * 3) _ (remap_rows_uniform buf width height hge')]
      simp

/-- Witness for C8's amended statement on a concrete oversized buffer. -/
theorem remap_serpentine_no_validation_witness :
    (2 * 1 * 3 ≤ ([1, 2, 3, 4, 5, 6, 7, 8, 9, 10, 11, 12] : List Nat).length) ∧
    (remap_serpentine [1, 2, 3, 4, 5, 6, 7, 8, 9, 10, 11, 12] 2 1 false =
      [1, 2, 3, 4, 5, 6, 7, 8, 9, 10, 11, 12] ∧
     ((remap_serpentine [1, 2, 3, 4, 5, 6, 7, 8, 9, 10, 11, 12] 2 1 true).length =
        ([1, 2, 3, 4, 5, 6, 7, 8, 9, 10, 11, 12] : List Nat).length ∧
      (remap_serpentine [1, 2, 3, 4, 5, 6, 7, 8, 9, 10, 11, 12] 2 1 true).drop (1 * (2 * 3)) =
        List.replicate (([1, 2, 3, 4, 5, 6, 7, 8, 9, 10, 11, 12] : List Nat).length -
          1 * (2 * 3)) 0)) :=
  ⟨by decide,
   ⟨(remap_serpentine_no_validation [1, 2, 3, 4, 5, 6, 7, 8, 9, 10, 11, 12] 2 1).1,
    (remap_serpentine_no_validation [1, 2, 3, 4, 5, 6, 7, 8, 9, 10, 11, 12] 2 1).2 (by decide)⟩⟩

/-- C5 counterexample: starting a new activation while a worker that does
not poll the stop signal within the 2-second join timeout is running leaves
two live transmission loops, and the timed-out worker's cancellation signal
is cleared rather than observed — so "at most one Transmission Loop runs at
any time" fails as an unconditional invariant. -/
theorem lifecycle_counterexample :
    liveLoops (start { responsive := true }
      { sender := some { responsive := false }, orphans := [], stopEvent := false }) = 2 ∧
    (start { responsive := true }
      { sender := some { responsive := false }, orphans := [], stopEvent := false }).orphans =
      [{ responsive := false }] ∧
    (start { responsive := true }
      { sender := some { responsive := false }, orphans := [], stopEvent := false }).stopEvent =
      false := by
  decide

/-- C5 (amended): `Start` always signals and joins the running loop (with a
bounded wait) before spawning the new one; provided the running loop
observes the stop signal within the join timeout (and no previously stuck
loop survives), the old loop has exited before the new loop is spawned and
exactly one transmission loop is live afterwards.  A loop that fails to
stop within the timeout keeps running alongside the new one. -/
theorem lifecycle_start_exclusive (w : Worker) (s : LifecycleState)
    (hresp : ∀ w₀, s.sender = some w₀ → w₀.responsive = true)
    (horph : s.orphans = []) :
    start w s = { sender := some w, orphans := [], stopEvent := false } ∧
    liveLoops (start w s) = 1 := by
  have hstop : stop_worker s = { sender := none, orphans := [], stopEvent := false } := by
    match hs : s.sender with
    | none => unfold stop_worker; rw [hs, horph]
    | some w₀ =>
      unfold stop_worker
      rw [hs]
      dsimp only
      rw [hresp w₀ hs, horph]
      simp
  constructor
  · unfold start
    rw [hstop]
  · unfold liveLoops start
    rw [hstop]
    simp

/-- Witness for C5's amended statement: replacing a responsive running
worker. -/
theorem lifecycle_start_exclusive_witness :
    ((∀ w₀, (some { responsive := true } : Option Worker) = some w₀ →
        w₀.responsive = true) ∧
     ([] : List Worker) = []) ∧
    (start { responsive := true }
        { sender := some { responsive := true }, orphans := [], stopEvent := false } =
      { sender := some { responsive := true }, orphans := [], stopEvent := false } ∧
     liveLoops (start { responsive := true }
        { sender := some { responsive := true }, orphans := [], stopEvent := false }) = 1) :=
  ⟨⟨fun w₀ h => by cases h; rfl, rfl⟩,
   lifecycle_start_exclusive { responsive := true }
     { sender := some { responsive := true }, orphans := [], stopEvent := false }
     (fun w₀ h => by cases h; rfl) rfl⟩

/-! ### Colour range lemmas -/

/-- Truncating a rational in `[0, 255]` lands in the byte range. -/
theorem pyInt_range (x : ℚ) (h0 : 0 ≤ x) (h255 : x ≤ 255) :
    0 ≤ pyInt x ∧ pyInt x ≤ 255 := by
  unfold pyInt
  rw [if_pos h0]
  refine ⟨Int.floor_nonneg.mpr h0, ?_⟩
  have h := Int.floor_le_floor h255
  simpa using h

/-- For `x` in the unit interval, `int(x * 255)` is a byte. -/
theorem pyInt_unit_byte (x : ℚ) (h0 : 0 ≤ x) (h1 : x ≤ 1) :
    0 ≤ pyInt (x * 255) ∧ pyInt (x * 255) ≤ 255 :=
  pyInt_range (x * 255) (by nlinarith) (by nlinarith)

/-- The rainbow sweep `hsv_to_rgb h 1 1` produces byte components for
`h` in the unit interval. -/
theorem hsv_component_range (h : ℚ) (h0 : 0 ≤ h) (h1 : h ≤ 1) :
    inByteRange (hsv_to_rgb h 1 1) := by
  have h60 : (0 : ℚ) ≤ h * 6 := by nlinarith
  have hpy : pyInt (h * 6) = ⌊h * 6⌋ := by unfold pyInt; exact if_pos h60
  have hf0 : 0 ≤ h * 6 - (⌊h * 6⌋ : ℚ) := by
    have := Int.fract_nonneg (h * 6)
    rw [Int.fract] at this
    linarith
  have hf1 : h * 6 - (⌊h * 6⌋ : ℚ) ≤ 1 := by
    have := Int.fract_lt_one (h * 6)
    rw [Int.fract] at this
    linarith
  unfold hsv_to_rgb inByteRange
  dsimp only
  rw [hpy]
  split_ifs <;> dsimp only <;> refine ⟨?_, ?_, ?_, ?_, ?_, ?_⟩ <;>
    first
      | exact (pyInt_unit_byte _ (by nlinarith) (by nlinarith)).1
      | exact (pyInt_unit_byte _ (by nlinarith) (by nlinarith)).2

/-- Linear interpolation between two bytes, truncated, is a byte. -/
theorem lerp_byte_range (a b : ℤ) (u : ℚ) (ha0 : 0 ≤ a) (ha1 : a ≤ 255)
    (hb0 : 0 ≤ b) (hb1 : b ≤ 255) (hu0 : 0 ≤ u) (hu1 : u ≤ 1) :
    0 ≤ pyInt (lerp (a : ℚ) (b : ℚ) u) ∧ pyInt (lerp (a : ℚ) (b : ℚ) u) ≤ 255 := by
  have ha0' : (0 : ℚ) ≤ (a : ℚ) := by exact_mod_cast ha0
  have ha1' : (a : ℚ) ≤ 255 := by exact_mod_cast ha1
  have hb0' : (0 : ℚ) ≤ (b : ℚ) := by exact_mod_cast hb0
  have hb1' : (b : ℚ) ≤ 255 := by exact_mod_cast hb1
  apply pyInt_range
  · unfold lerp
    nlinarith [mul_nonneg ha0' (sub_nonneg.mpr hu1), mul_nonneg hb0' hu0]
  · unfold lerp
    nlinarith [mul_nonneg (sub_nonneg.mpr ha1') (sub_nonneg.mpr hu1),
      mul_nonneg (sub_nonneg.mpr hb1') hu0]

/-- `lerp_rgb` between byte triples, with a unit-interval parameter, yields
a byte triple. -/
theorem lerp_rgb_range (a b : ℤ × ℤ × ℤ) (u : ℚ) (ha : inByteRange a)
    (hb : inByteRange b) (hu0 : 0 ≤ u) (hu1 : u ≤ 1) :
    inByteRange (lerp_rgb a b u) := by
  obtain ⟨ha1, ha2, ha3, ha4, ha5, ha6⟩ := ha
  obtain ⟨hb1, hb2, hb3, hb4, hb5, hb6⟩ := hb
  unfold lerp_rgb inByteRange
  refine ⟨?_, ?_, ?_, ?_, ?_, ?_⟩
  · exact (lerp_byte_range _ _ u ha1 ha2 hb1 hb2 hu0 hu1).1
  · exact (lerp_byte_range _ _ u ha1 ha2 hb1 hb2 hu0 hu1).2
  · exact (lerp_byte_range _ _ u ha3 ha4 hb3 hb4 hu0 hu1).1
  · exact (lerp_byte_range _ _ u ha3 ha4 hb3 hb4 hu0 hu1).2
  · exact (lerp_byte_range _ _ u ha5 ha6 hb5 hb6 hu0 hu1).1
  · exact (lerp_byte_range _ _ u ha5 ha6 hb5 hb6 hu0 hu1).2

/-- The segment-search loop yields a byte triple whenever all stops are
byte triples, the positions are strictly increasing, and the default is a
byte triple. -/
theorem segment_color_range (t : ℚ) (dflt : ℤ × ℤ × ℤ) (hd : inByteRange dflt) :
    ∀ L : List ((ℤ × ℤ × ℤ) × ℚ), (∀ sp ∈ L, inByteRange sp.1) →
      List.Chain' (fun a b => a.2 < b.2) L →
      inByteRange (segment_color t dflt L) := by
  intro L
  induction L with
  | nil => intro _ _; exact hd
  | cons a L ih =>
    intro hmem hch
    cases L with
    | nil =>
      obtain ⟨s1, p1⟩ := a
      exact hd
    | cons b rest =>
      obtain ⟨s1, p1⟩ := a
      obtain ⟨s2, p2⟩ := b
      rw [List.chain'_cons] at hch
      show inByteRange (if p1 ≤ t ∧ t ≤ p2 then
          lerp_rgb s1 s2 ((t - p1) / (p2 - p1))
        else segment_color t dflt ((s2, p2) :: rest))
      split_ifs with hseg
      · obtain ⟨hl, hr⟩ := hseg
        have hp : p1 < p2 := hch.1
        have hu0 : 0 ≤ (t - p1) / (p2 - p1) :=
          div_nonneg (by linarith) (by linarith)
        have hu1 : (t - p1) / (p2 - p1) ≤ 1 := by
          rw [div_le_one (by linarith)]
          linarith
        have hs1 : inByteRange s1 := hmem (s1, p1) (by simp)
        have hs2 : inByteRange s2 := hmem (s2, p2) (by simp)
        exact lerp_rgb_range s1 s2 _ hs1 hs2 hu0 hu1
      · exact ih (fun sp hsp => hmem sp (List.mem_cons_of_mem _ hsp)) hch.2

/-- C10: for every rational `t` (the model of the Python float, including
values outside `[0, 1]`) and every preset name, `gradient_preset_color`
returns a triple of components in `0..255`, and any preset name other than
the five known ones yields white. -/
theorem gradient_preset_color_range (t : ℚ) (preset : String) :
    inByteRange (gradient_preset_color t preset) ∧
    (preset ∉ (["rainbow", "fire", "ocean", "sunset", "ice"] : List String) →
      gradient_preset_color t preset = (255, 255, 255)) := by
  have ht0 : (0 : ℚ) ≤ max 0 (min 1 t) := le_max_left 0 (min 1 t)
  have ht1 : max 0 (min 1 t) ≤ 1 := max_le (by norm_num) (min_le_left 1 t)
  unfold gradient_preset_color
  dsimp only
  split_ifs with h1 h2 h3 h4 h5
  · exact ⟨hsv_component_range _ ht0 ht1, fun hn => absurd (by simp [h1]) hn⟩
  · refine ⟨segment_color_range _ _ (by decide) fire_stops ?_ ?_,
      fun hn => absurd (by simp [h2]) hn⟩
    · intro sp hsp
      fin_cases hsp <;> decide
    · simp only [fire_stops, List.chain'_cons, List.chain'_singleton, and_true]
      norm_num
  · refine ⟨segment_color_range _ _ (by decide) ocean_stops ?_ ?_,
      fun hn => absurd (by simp [h3]) hn⟩
    · intro sp hsp
      fin_cases hsp <;> decide
    · simp only [ocean_stops, List.chain'_cons, List.chain'_singleton, and_true]
      norm_num
  · refine ⟨segment_color_range _ _ (by decide) sunset_stops ?_ ?_,
      fun hn => absurd (by simp [h4]) hn⟩
    · intro sp hsp
      fin_cases hsp <;> decide
    · simp only [sunset_stops, List.chain'_cons, List.chain'_singleton, and_true]
      norm_num
  · refine ⟨segment_color_range _ _ (by decide) ice_stops ?_ ?_,
      fun hn => absurd (by simp [h5]) hn⟩
    · intro sp hsp
      fin_cases hsp <;> decide
    · simp only [ice_stops, List.chain'_cons, List.chain'_singleton, and_true]
      norm_num
  · exact ⟨by decide, fun _ => rfl⟩

/-- Witness for C10 at `t = 7/2` (outside the unit interval) and the
unknown preset name `nope`. -/
theorem gradient_preset_color_range_witness :
    ("nope" ∉ (["rainbow", "fire", "ocean", "sunset", "ice"] : List String)) ∧
    (inByteRange (gradient_preset_color (7/2) "nope") ∧
     gradient_preset_color (7/2) "nope" = (255, 255, 255)) :=
  ⟨by decide,
   ⟨(gradient_preset_color_range (7/2) "nope").1,
    (gradient_preset_color_range (7/2) "nope").2 (by decide)⟩⟩

end LedScroller

example : LedScroller.send_ddp_frame [1, 2, 3] 1 0 =
    [{ header := [0x41, 1, 0, 0, 0, 0, 0, 0, 0, 3], payload := [1, 2, 3] }] := by
  decide

example : (LedScroller.wled_udp_send [9, 9, 9] 1 2) =
    [([4, 2, 0, 0], [9, 9, 9])] := by decide
